import Mathlib

/-!
Verification of the covariance-matrix construction engine of `sf_quant`
(`src/sf_quant/data/covariance_matrix.py`, together with the factor
enumeration in `src/sf_quant/data/_factors.py`).

The data loaders (`load_exposures_by_date`, `load_covariances_by_date`,
`load_assets_by_date`) are external collaborators: their outputs are
modelled as explicit table values passed to the functions below.  Numeric
cells are modelled as `ℚ`; a polars `null` / numpy `NaN` cell is modelled
as `none : Option ℚ`.  A polars `DataFrame` whose first column holds the
row labels (`barrid` / `factor_1`) and whose remaining columns are float
columns is modelled by `Frame`.  Python string comparison (code-point
lexicographic) is modelled by comparing the character lists of the two
strings.
-/

namespace SfQuant

/-- Python string ordering: lexicographic on the code points, modelled as
the lexicographic order on the character lists of the two strings. -/
def strLE (a b : String) : Prop :=
  a.data ≤ b.data

instance : DecidableRel strLE :=
  fun a b => inferInstanceAs (Decidable (a.data ≤ b.data))

instance : IsTotal String strLE :=
  ⟨fun a b => IsTotal.total (r := (· ≤ · : List Char → List Char → Prop)) a.data b.data⟩

instance : IsTrans String strLE :=
  ⟨fun _ _ _ hab hbc => le_trans hab hbc⟩

instance : IsAntisymm String strLE :=
  ⟨fun a b hab hba => by
    cases a with
    | mk da =>
      cases b with
      | mk db =>
        have h : da = db := le_antisymm hab hba
        simp [h]⟩

/-- Row ordering by the label (first) component, used to model sorting a
frame by its `barrid` / `factor_1` column. -/
def keyLE {α : Type} (a b : String × α) : Prop :=
  strLE a.1 b.1

instance {α : Type} : DecidableRel (keyLE (α := α)) :=
  fun a b => inferInstanceAs (Decidable (strLE a.1 b.1))

instance {α : Type} : IsTotal (String × α) keyLE :=
  ⟨fun a b => IsTotal.total (r := strLE) a.1 b.1⟩

instance {α : Type} : IsTrans (String × α) keyLE :=
  ⟨fun _ _ _ hab hbc => Trans.trans (r := (· ≤ · : List Char → List Char → Prop)) hab hbc⟩

/-- Model of Python `sorted` on a list of strings. -/
def sortStrings (l : List String) : List String :=
  List.insertionSort strLE l

/-- Model of a polars `.sort(<label column>)` on rows carrying a label. -/
def sortRows {α : Type} (l : List (String × α)) : List (String × α) :=
  List.insertionSort keyLE l

/-- Matrix entry access, numpy-style `A[i][j]` (claims only evaluate it in
range; out of range it defaults to 0). -/
def mget (A : List (List ℚ)) (i j : ℕ) : ℚ :=
  (A.getD i []).getD j 0

/-- Number of rows of a (rectangular) numpy 2-D array. -/
def nrows (A : List (List ℚ)) : ℕ :=
  A.length

/-- Number of columns of a (rectangular) numpy 2-D array. -/
def ncols (A : List (List ℚ)) : ℕ :=
  (A.headD []).length

/-- numpy matrix multiplication `A @ B` (dimensions are compatible in every
use the claims exercise; the contraction runs over the rows of `B`). -/
def matmul (A B : List (List ℚ)) : List (List ℚ) :=
  A.map (fun row => (List.range (ncols B)).map
    (fun j => ∑ k ∈ Finset.range B.length, row.getD k 0 * mget B k j))

/-- numpy transpose `A.T`. -/
def transposeM (A : List (List ℚ)) : List (List ℚ) :=
  (List.range (ncols A)).map (fun j => A.map (fun row => row.getD j 0))

/-- numpy elementwise `A + B` with 2-D broadcasting: along each axis the
two extents must agree or one of them must be 1; otherwise numpy raises a
broadcast `ValueError`, modelled as `none`. -/
def badd (A B : List (List ℚ)) : Option (List (List ℚ)) :=
  if (nrows A = nrows B ∨ nrows A = 1 ∨ nrows B = 1) ∧
     (ncols A = ncols B ∨ ncols A = 1 ∨ ncols B = 1) then
    some ((List.range (max (nrows A) (nrows B))).map (fun i =>
      (List.range (max (ncols A) (ncols B))).map (fun j =>
        mget A (if nrows A = 1 then 0 else i) (if ncols A = 1 then 0 else j) +
        mget B (if nrows B = 1 then 0 else i) (if ncols B = 1 then 0 else j))))
  else
    none

/-- numpy elementwise division of a matrix by a scalar. -/
def scaleDiv (A : List (List ℚ)) (c : ℚ) : List (List ℚ) :=
  A.map (fun row => row.map (fun x => x / c))

/-- numpy column extraction `A[:, j]`. -/
def colOf (A : List (List ℚ)) (j : ℕ) : List ℚ :=
  A.map (fun row => row.getD j 0)

/-- A polars DataFrame whose first column (`barrid` / `factor_1`) holds the
row labels and whose remaining columns are named float columns. -/
structure Frame where
  labels : List String
  cols : List (String × List ℚ)
deriving DecidableEq, Repr

/-- Helper for `withIdx`. -/
def idxFrom {α : Type} (n : ℕ) : List α → List (ℕ × α)
  | [] => []
  | a :: as => (n, a) :: idxFrom (n + 1) as

/-- Model of Python `enumerate`: pair every element with its index. -/
def withIdx {α : Type} (l : List α) : List (ℕ × α) :=
  idxFrom 0 l

/-- Python dict update semantics: writing key `k` keeps its first-insertion
position but overwrites the stored value. -/
def dictUpd (d : List (String × List ℚ)) (k : String) (v : List ℚ) :
    List (String × List ℚ) :=
  if d.any (fun p => p.1 == k) then
    d.map (fun p => if p.1 == k then (p.1, v) else p)
  else
    d ++ [(k, v)]

/-- Python dict built from a sequence of key/value pairs (duplicate keys
overwrite, as in a dict comprehension). -/
def dictOf (ps : List (String × List ℚ)) : List (String × List ℚ) :=
  ps.foldl (fun d p => dictUpd d p.1 p.2) []

/-- polars DataFrame construction from a label column and named data
columns: polars raises a `ShapeError` when some column's height differs
from the label column's height, modelled as `none`. -/
def mkFrame (labels : List String) (cols : List (String × List ℚ)) : Option Frame :=
  if cols.all (fun c => c.2.length == labels.length) then some ⟨labels, cols⟩ else none

/-- Model of `frame.drop(<label column>).to_numpy()`: the 2-D array whose
row `i` collects the `i`-th entry of every data column. -/
def frameMatrix (F : Frame) : List (List ℚ) :=
  (List.range F.labels.length).map (fun i => F.cols.map (fun c => c.2.getD i 0))

/-- The loaded exposures table for one date, after `.drop('date')`: one row
per asset (`barrid`, cells for the factor columns in stored order);
`none` is a null cell. -/
structure ExpoTable where
  factorCols : List String
  rows : List (String × List (Option ℚ))

/-- The loaded factor-covariance table for one date, after `.drop('date')`:
`cols` are the column names other than `factor_1` in stored order; each row
is (`factor_1` value, cells aligned with `cols`); `none` is a NaN cell. -/
structure CovTable where
  cols : List String
  rows : List (String × List (Option ℚ))

/-- The loaded per-asset specific-risk table for one date:
(`barrid`, `specific_risk`) rows; `none` is a null cell. -/
abbrev SrTable := List (String × Option ℚ)

/-- Model of `_construct_factor_exposure_matrix` applied to the loaded
exposure table: filter to the requested barrids, `fill_null(0)`, sort rows
ascending by `barrid`.  The result frame is kept in row form
(`barrid`, factor cells); the caller drops the `barrid` column. -/
def construct_factor_exposure_matrix (T : ExpoTable) (barrids : List String) :
    List (String × List ℚ) :=
  sortRows ((T.rows.filter (fun r => barrids.contains r.1)).map
    (fun r => (r.1, r.2.map (fun c => c.getD 0))))

/-- The covariance stage's local `fc_df.select([...] + sorted(...))` column
order: the non-`factor_1` column names sorted ascending. -/
def covSortedCols (T : CovTable) : List String :=
  sortStrings T.cols

/-- The covariance stage's rows after `fc_df.sort("factor_1")`. -/
def covRowsSorted (T : CovTable) : List (String × List (Option ℚ)) :=
  sortRows T.rows

/-- The covariance stage's local `factors`: the `factor_1` column of the
sorted frame. -/
def covFactorIds (T : CovTable) : List String :=
  (covRowsSorted T).map (fun r => r.1)

/-- The covariance stage's local `utm`: the numpy array of the sorted frame
with `factor_1` dropped — entry `(i, j)` is row `i`'s cell at the `j`-th
sorted column name (selecting a column by name reads the stored cell at
that name's position in the stored column order). -/
def covUtm (T : CovTable) (i j : ℕ) : Option ℚ :=
  ((covRowsSorted T).getD i ("", [])).2.getD
    (T.cols.indexOf ((covSortedCols T).getD j "")) none

/-- The covariance stage's `np.where(np.isnan(utm), utm.T, utm)`: keep the
stored value, else mirror from the transposed position. -/
def covMirrored (T : CovTable) (i j : ℕ) : Option ℚ :=
  match covUtm T i j with
  | some v => some v
  | none => covUtm T j i

/-- Model of `_construct_factor_covariance_matrix` applied to the loaded
covariance table: columns reordered ascending by name, rows sorted by
`factor_1`, upper-triangular-to-symmetric mirroring via
`np.where(np.isnan(utm), utm.T, utm)`, packaging keyed by the sorted factor
ids, and `fill_nan(0)` (the final `.getD 0`). -/
def construct_factor_covariance_matrix (T : CovTable) : Frame :=
  { labels := covFactorIds T,
    cols := dictOf ((withIdx (covFactorIds T)).map
      (fun p => (p.2, (List.range (covRowsSorted T).length).map
        (fun i => (covMirrored T i p.1).getD 0)))) }

/-- The specific risk value that the left join of the requested barrids
against the loaded asset table followed by `fill_null(0)` assigns to barrid
`b`: the table value for `b` with a null treated as 0, and 0 when `b` is
absent from the table.  The join is modelled as a first-match lookup,
faithful when the table's barrids are unique. -/
def srVal (srT : SrTable) (b : String) : ℚ :=
  match srT.find? (fun r => r.1 == b) with
  | some r => r.2.getD 0
  | none => 0

/-- The specific-risk stage's joined `specific_risk` column: one value per
requested barrid, in the caller-supplied order. -/
def srJoined (srT : SrTable) (barrids : List String) : List ℚ :=
  barrids.map (fun b => srVal srT b)

/-- The specific-risk stage's `np.power(np.diag(...), 2)`. -/
def srDiagonal (srT : SrTable) (barrids : List String) : List (List ℚ) :=
  (List.range (srJoined srT barrids).length).map (fun i =>
    (List.range (srJoined srT barrids).length).map (fun j =>
      (if i = j then (srJoined srT barrids).getD i 0 else 0) ^ 2))

/-- Model of `_construct_specific_risk_matrix` applied to the loaded asset
table: left-join the requested barrids against the table, `fill_null(0)`,
square the diagonal embedding of the joined specific-risk column, and
package keyed by the requested barrids. -/
def construct_specific_risk_matrix (srT : SrTable) (barrids : List String) : Frame :=
  { labels := barrids,
    cols := dictOf ((withIdx barrids).map
      (fun p => (p.2, colOf (srDiagonal srT barrids) p.1))) }

/-- The numpy array `_construct_factor_exposure_matrix(...).drop("barrid").to_numpy()`. -/
def exposuresMatrix (T : ExpoTable) (barrids : List String) : List (List ℚ) :=
  (construct_factor_exposure_matrix T barrids).map (fun r => r.2)

/-- The numpy array `_construct_factor_covariance_matrix(...).drop("factor_1").to_numpy()`. -/
def fcovMatrix (T : CovTable) : List (List ℚ) :=
  frameMatrix (construct_factor_covariance_matrix T)

/-- The numpy array `_construct_specific_risk_matrix(...).drop("barrid").to_numpy()`. -/
def idioMatrix (srT : SrTable) (barrids : List String) : List (List ℚ) :=
  frameMatrix (construct_specific_risk_matrix srT barrids)

/-- Model of `construct_covariance_matrix`: drop the label columns of the
three stage outputs, compute `X @ Σf @ X.T + D` (numpy semantics, including
broadcasting on `+`), divide by `100^2`, and package the result keyed by
the caller-supplied barrids in their given order. -/
def construct_covariance_matrix (expoT : ExpoTable) (covT : CovTable)
    (srT : SrTable) (barrids : List String) : Option Frame :=
  match badd (matmul (matmul (exposuresMatrix expoT barrids) (fcovMatrix covT))
      (transposeM (exposuresMatrix expoT barrids))) (idioMatrix srT barrids) with
  | none => none
  | some raw =>
    let cm := scaleDiv raw ((100 : ℚ) ^ 2)
    mkFrame barrids (dictOf ((withIdx barrids).map (fun p => (p.2, colOf cm p.1))))

/-- Specification-side accessor: the stored covariance cell at row id `f1`,
column id `f2` of the loaded covariance table (`none` when the row is
absent, the column name is absent, or the cell is NaN). -/
def covVal (T : CovTable) (f1 f2 : String) : Option ℚ :=
  match T.rows.find? (fun r => r.1 == f1) with
  | some r => r.2.getD (T.cols.indexOf f2) none
  | none => none

/-- The closed factor enumeration of `_factors.py`: `factors = sorted([...])`
with the literal list in its source order. -/
def factors : List String :=
  sortStrings
    [ "USSLOWL_BETA", "USSLOWL_COUNTRY", "USSLOWL_DIVYILD", "USSLOWL_EARNQLTY",
      "USSLOWL_EARNYILD", "USSLOWL_GROWTH", "USSLOWL_LEVERAGE", "USSLOWL_LIQUIDTY",
      "USSLOWL_LTREVRSL", "USSLOWL_MGMTQLTY", "USSLOWL_MIDCAP", "USSLOWL_MOMENTUM",
      "USSLOWL_PROFIT", "USSLOWL_PROSPECT", "USSLOWL_SIZE", "USSLOWL_VALUE",
      "USSLOWL_AERODEF", "USSLOWL_AIRLINES", "USSLOWL_ALUMSTEL", "USSLOWL_APPAREL",
      "USSLOWL_AUTO", "USSLOWL_BANKS", "USSLOWL_BEVTOB", "USSLOWL_BIOLIFE",
      "USSLOWL_BLDGPROD", "USSLOWL_CHEM", "USSLOWL_CNSTENG", "USSLOWL_CNSTMACH",
      "USSLOWL_CNSTMATL", "USSLOWL_COMMEQP", "USSLOWL_COMPELEC", "USSLOWL_COMSVCS",
      "USSLOWL_CONGLOM", "USSLOWL_CONTAINR", "USSLOWL_DISTRIB", "USSLOWL_DIVFIN",
      "USSLOWL_ELECEQP", "USSLOWL_ELECUTIL", "USSLOWL_FOODPROD", "USSLOWL_FOODRET",
      "USSLOWL_GASUTIL", "USSLOWL_HLTHEQP", "USSLOWL_HLTHSVCS", "USSLOWL_HOMEBLDG",
      "USSLOWL_HOUSEDUR", "USSLOWL_INDMACH", "USSLOWL_INSURNCE", "USSLOWL_INTERNET",
      "USSLOWL_LEISPROD", "USSLOWL_LEISSVCS", "USSLOWL_LIFEINS", "USSLOWL_MEDIA",
      "USSLOWL_MGDHLTH", "USSLOWL_MULTUTIL", "USSLOWL_OILGSCON", "USSLOWL_OILGSDRL",
      "USSLOWL_OILGSEQP", "USSLOWL_OILGSEXP", "USSLOWL_PAPER", "USSLOWL_PHARMA",
      "USSLOWL_PRECMTLS", "USSLOWL_PSNLPROD", "USSLOWL_REALEST", "USSLOWL_RESTAUR",
      "USSLOWL_RESVOL", "USSLOWL_ROADRAIL", "USSLOWL_SEMICOND", "USSLOWL_SEMIEQP",
      "USSLOWL_SOFTWARE", "USSLOWL_SPLTYRET", "USSLOWL_SPTYCHEM", "USSLOWL_SPTYSTOR",
      "USSLOWL_TELECOM", "USSLOWL_TRADECO", "USSLOWL_TRANSPRT", "USSLOWL_WIRELESS" ]

/-- Modelled from the spec: `load_exposures_by_date` is not under `src/`;
&#167;4.1/&#167;6 of the spec state that the exposure source's factor columns are the
closed FactorId enumeration shared with the covariance stage, in ascending
lexicographic order (the shared constant `factors`). -/
def loadedExposureFactorColumns : List String :=
  factors

/-- The factor column order of the exposure matrix built by the exposure
stage: the stage drops `date` and `barrid` and never reorders the
remaining columns, so it is the loaded table's column order. -/
def exposureMatrixFactorColumns (T : ExpoTable) : List String :=
  T.factorCols

/-- Frame entry access: entry `(i, j)` of the data columns of a frame. -/
def fget (F : Frame) (i j : ℕ) : ℚ :=
  ((F.cols.getD j ("", [])).2).getD i 0

/-! Concrete data-store contents used to exercise the model: the spec's
end-to-end scenario (&#167;8) — assets `A`, `B`, one factor `F` with exposures
1 and 2, factor variance 2500, zero specific risk — and variants of it. -/

/-- Exposure source with rows for `A` (exposure 1) and `B` (exposure 2). -/
def egExpo : ExpoTable :=
  ⟨["F"], [("A", [some 1]), ("B", [some 2])]⟩

/-- Exposure source with a row for `A` only: `B` has zero exposure rows. -/
def egExpoA : ExpoTable :=
  ⟨["F"], [("A", [some 1])]⟩

/-- Covariance source with the single factor `F`, variance 2500. -/
def egCov : CovTable :=
  ⟨["F"], [("F", [some 2500])]⟩

/-- Asset source with zero specific risk for `A` and `B`. -/
def egSr : SrTable :=
  [("A", some 0), ("B", some 0)]

/-- Asset source equal to `egSr` except asset `A`'s specific risk is 1. -/
def egSrA : SrTable :=
  [("A", some 1), ("B", some 0)]

/-- Asset source with zero specific risk for `A`, `B` and `C`. -/
def egSr3 : SrTable :=
  [("A", some 0), ("B", some 0), ("C", some 0)]

/-- Covariance source stored upper-triangularly: factors `F`, `G`; the
`(G, F)` cell is NaN and mirrors the stored `(F, G)` cell. -/
def egCovUT : CovTable :=
  ⟨["F", "G"], [("F", [some 1, some 3]), ("G", [none, some 2])]⟩

/-- Symmetric ground truth for `egCovUT`. -/
def egGT (f1 f2 : String) : ℚ :=
  if f1 = "F" ∧ f2 = "F" then 1
  else if f1 = "G" ∧ f2 = "G" then 2
  else 3

/-! Generic list helpers. -/

theorem getD_map {α β : Type} (f : α → β) (l : List α) (j : ℕ) (d : β) (d2 : α)
    (h : j < l.length) : (l.map f).getD j d = f (l.getD j d2) := by
  simp [List.getD_eq_getElem?_getD, List.getElem?_map, List.getElem?_eq_getElem h]

theorem idxFrom_length {α : Type} (l : List α) (n : ℕ) :
    (idxFrom n l).length = l.length := by
  induction l generalizing n with
  | nil => simp [idxFrom]
  | cons a as ih => simp [idxFrom, ih]

theorem idxFrom_getElem? {α : Type} (l : List α) (n j : ℕ) :
    (idxFrom n l)[j]? = l[j]?.map (fun a => (n + j, a)) := by
  induction l generalizing n j with
  | nil => simp [idxFrom]
  | cons a as ih =>
    cases j with
    | zero => simp [idxFrom]
    | succ j =>
      simp only [idxFrom, List.getElem?_cons_succ, ih]
      have h : n + 1 + j = n + (j + 1) := by omega
      simp [h]

theorem withIdx_length {α : Type} (l : List α) : (withIdx l).length = l.length :=
  idxFrom_length l 0

theorem withIdx_getElem? {α : Type} (l : List α) (j : ℕ) :
    (withIdx l)[j]? = l[j]?.map (fun a => (j, a)) := by
  simpa using idxFrom_getElem? l 0 j

theorem idxFrom_map_snd {α : Type} (l : List α) (n : ℕ) :
    (idxFrom n l).map (fun p => p.2) = l := by
  induction l generalizing n with
  | nil => simp [idxFrom]
  | cons a as ih => simp [idxFrom, ih]

theorem withIdx_map_snd {α : Type} (l : List α) :
    (withIdx l).map (fun p => p.2) = l :=
  idxFrom_map_snd l 0

/-! Dict helpers: a dict built from pairs with distinct keys is the pair
list itself. -/

theorem dictUpd_of_fresh (d : List (String × List ℚ)) (k : String) (v : List ℚ)
    (h : ∀ p ∈ d, p.1 ≠ k) : dictUpd d k v = d ++ [(k, v)] := by
  have hany : d.any (fun p => p.1 == k) = false := by
    simp only [List.any_eq_false]
    intro p hp
    simpa using h p hp
  simp [dictUpd, hany]

theorem foldl_dictUpd (ps acc : List (String × List ℚ))
    (h : ((acc ++ ps).map Prod.fst).Nodup) :
    List.foldl (fun d p => dictUpd d p.1 p.2) acc ps = acc ++ ps := by
  induction ps generalizing acc with
  | nil => simp
  | cons p ps ih =>
    have hfresh : ∀ q ∈ acc, q.1 ≠ p.1 := by
      intro q hq
      have hmap := h
      rw [List.map_append, List.nodup_append] at hmap
      intro hc
      exact hmap.2.2 (List.mem_map_of_mem Prod.fst hq) (by simp [hc])
    have hupd : dictUpd acc p.1 p.2 = acc ++ [p] := by
      rw [dictUpd_of_fresh acc p.1 p.2 hfresh]
    have hih := ih (acc ++ [p]) (by simpa using h)
    simp only [List.foldl_cons, hupd, hih, List.append_assoc, List.singleton_append]

theorem dictOf_of_nodup (ps : List (String × List ℚ))
    (h : (ps.map Prod.fst).Nodup) : dictOf ps = ps := by
  simpa [dictOf] using foldl_dictUpd ps [] (by simpa using h)

/-! find? by key in a list with distinct keys. -/

theorem find?_key_of_mem {α : Type} (l : List (String × α))
    (h : (l.map Prod.fst).Nodup) (r : String × α) (hr : r ∈ l) :
    l.find? (fun x => x.1 == r.1) = some r := by
  induction l with
  | nil => cases hr
  | cons a t ih =>
    rcases List.mem_cons.mp hr with rfl | hr
    · simp [List.find?]
    · have hne : a.1 ≠ r.1 := by
        intro hc
        have : r.1 ∈ t.map Prod.fst := List.mem_map_of_mem Prod.fst hr
        rw [List.map_cons, List.nodup_cons] at h
        exact h.1 (hc ▸ this)
      have hpa : (a.1 == r.1) = false := by simpa using hne
      rw [List.find?]
      rw [hpa]
      exact ih (by rw [List.map_cons, List.nodup_cons] at h; exact h.2) hr

/-! Sorting helpers. -/

theorem sortRows_perm {α : Type} (l : List (String × α)) : (sortRows l).Perm l :=
  List.perm_insertionSort keyLE l

theorem sortRows_sorted {α : Type} (l : List (String × α)) :
    List.Sorted keyLE (sortRows l) :=
  List.sorted_insertionSort keyLE l

theorem sortStrings_perm (l : List String) : (sortStrings l).Perm l :=
  List.perm_insertionSort strLE l

theorem sortStrings_sorted (l : List String) : List.Sorted strLE (sortStrings l) :=
  List.sorted_insertionSort strLE l

theorem sortRows_map_fst_sorted {α : Type} (l : List (String × α)) :
    List.Sorted strLE ((sortRows l).map Prod.fst) :=
  List.Pairwise.map Prod.fst (fun _ _ hab => hab) (sortRows_sorted l)

theorem map_fst_sortRows {α : Type} (l : List (String × α)) :
    (sortRows l).map Prod.fst = sortStrings (l.map Prod.fst) := by
  refine List.eq_of_perm_of_sorted ?_ (sortRows_map_fst_sorted l) (sortStrings_sorted _)
  exact ((sortRows_perm l).map Prod.fst).trans (sortStrings_perm _).symm

theorem sortStrings_eq_of_sorted (l : List String) (h : List.Sorted strLE l) :
    sortStrings l = l :=
  List.eq_of_perm_of_sorted (sortStrings_perm l) (sortStrings_sorted l) h

/-! Packaging helpers: all three functions package a matrix by building a
dict keyed by a label list. -/

theorem packaged_cols (ls : List String) (g : ℕ × String → List ℚ) (h : ls.Nodup) :
    dictOf ((withIdx ls).map (fun p => (p.2, g p)))
      = (withIdx ls).map (fun p => (p.2, g p)) := by
  apply dictOf_of_nodup
  have hkeys : ((withIdx ls).map (fun p => (p.2, g p))).map Prod.fst = ls := by
    rw [List.map_map]
    exact withIdx_map_snd ls
  rw [hkeys]
  exact h

theorem packaged_map_fst (ls : List String) (g : ℕ × String → List ℚ) :
    ((withIdx ls).map (fun p => (p.2, g p))).map Prod.fst = ls := by
  rw [List.map_map]
  exact withIdx_map_snd ls

theorem packaged_getD (ls : List String) (g : ℕ × String → List ℚ) (j : ℕ)
    (d : String × List ℚ) (hj : j < ls.length) :
    ((withIdx ls).map (fun p => (p.2, g p))).getD j d
      = (ls.getD j "", g (j, ls.getD j "")) := by
  rw [List.getD_eq_getElem?_getD, List.getElem?_map, withIdx_getElem?,
    List.getElem?_eq_getElem hj]
  simp [List.getD_eq_getElem?_getD, List.getElem?_eq_getElem hj]

/-! Matrix operation lemmas. -/

theorem matmul_length (A B : List (List ℚ)) : (matmul A B).length = A.length := by
  simp [matmul]

theorem ncols_matmul (A B : List (List ℚ)) (h : 0 < A.length) :
    ncols (matmul A B) = ncols B := by
  cases A with
  | nil => cases h
  | cons r t => simp [matmul, ncols]

theorem mget_matmul (A B : List (List ℚ)) (i j : ℕ) (hi : i < A.length)
    (hj : j < ncols B) :
    mget (matmul A B) i j
      = ∑ k ∈ Finset.range B.length, mget A i k * mget B k j := by
  have h1 : (matmul A B).getD i [] = (List.range (ncols B)).map
      (fun c => ∑ k ∈ Finset.range B.length, (A.getD i []).getD k 0 * mget B k c) := by
    unfold matmul
    exact getD_map _ A _ _ [] hi
  have h2 : (List.range (ncols B)).getD j 0 = j := by
    rw [List.getD_eq_getElem?_getD, List.getElem?_range hj]
    rfl
  unfold mget
  rw [h1, getD_map _ (List.range (ncols B)) _ _ 0 (by simpa using hj), h2]
  rfl

theorem transposeM_length (A : List (List ℚ)) : (transposeM A).length = ncols A := by
  simp [transposeM]

theorem ncols_transposeM (A : List (List ℚ)) (h : 0 < ncols A) :
    ncols (transposeM A) = A.length := by
  obtain ⟨m, hm⟩ : ∃ m, ncols A = m + 1 := ⟨ncols A - 1, by omega⟩
  rw [transposeM, hm, List.range_succ_eq_map]
  simp [ncols]

theorem mget_transposeM (A : List (List ℚ)) (k j : ℕ) (hk : k < ncols A)
    (hj : j < A.length) : mget (transposeM A) k j = mget A j k := by
  have h1 : (transposeM A).getD k []
      = A.map (fun row => row.getD ((List.range (ncols A)).getD k 0) 0) := by
    unfold transposeM
    exact getD_map _ (List.range (ncols A)) _ _ 0 (by simpa using hk)
  have h2 : (List.range (ncols A)).getD k 0 = k := by
    rw [List.getD_eq_getElem?_getD, List.getElem?_range hk]
    rfl
  unfold mget
  rw [h1, h2, getD_map _ A _ _ [] hj]

theorem getD_map_div (row : List ℚ) (j : ℕ) (c : ℚ) :
    (row.map (fun x => x / c)).getD j 0 = row.getD j 0 / c := by
  rcases Nat.lt_or_ge j row.length with h | h
  · rw [getD_map _ row _ _ 0 h]
  · rw [List.getD_eq_getElem?_getD, List.getD_eq_getElem?_getD,
      List.getElem?_eq_none (by simpa using h), List.getElem?_eq_none h]
    simp

theorem scaleDiv_length (A : List (List ℚ)) (c : ℚ) :
    (scaleDiv A c).length = A.length := by
  simp [scaleDiv]

theorem mget_scaleDiv (A : List (List ℚ)) (c : ℚ) (i j : ℕ) :
    mget (scaleDiv A c) i j = mget A i j / c := by
  unfold mget scaleDiv
  rcases Nat.lt_or_ge i A.length with h | h
  · rw [getD_map _ A _ _ [] h]
    exact getD_map_div _ j c
  · have e1 : (A.map (fun row => row.map (fun x => x / c))).getD i [] = ([] : List ℚ) := by
      rw [List.getD_eq_getElem?_getD, List.getElem?_eq_none (by simpa using h)]
      rfl
    have e2 : A.getD i [] = ([] : List ℚ) := by
      rw [List.getD_eq_getElem?_getD, List.getElem?_eq_none h]
      rfl
    rw [e1, e2]
    simp

theorem colOf_length (A : List (List ℚ)) (j : ℕ) : (colOf A j).length = A.length := by
  simp [colOf]

theorem colOf_getD (A : List (List ℚ)) (j i : ℕ) (hi : i < A.length) :
    (colOf A j).getD i 0 = mget A i j := by
  unfold colOf mget
  rw [getD_map _ A _ _ [] hi]

theorem ncols_of_rect (E : List (List ℚ)) (K : ℕ) (h : ∀ r ∈ E, r.length = K)
    (hM : 0 < E.length) : ncols E = K := by
  cases E with
  | nil => cases hM
  | cons r t => exact h r (List.mem_cons_self r t)

theorem mget_grid (f : ℕ → ℕ → ℚ) (n m i j : ℕ) (hi : i < n) (hj : j < m) :
    mget ((List.range n).map (fun a => (List.range m).map (fun b => f a b))) i j
      = f i j := by
  have h2 : (List.range n).getD i 0 = i := by
    rw [List.getD_eq_getElem?_getD, List.getElem?_range hi]
    rfl
  have h3 : (List.range m).getD j 0 = j := by
    rw [List.getD_eq_getElem?_getD, List.getElem?_range hj]
    rfl
  unfold mget
  rw [getD_map _ (List.range n) _ _ 0 (by simpa using hi), h2,
    getD_map _ (List.range m) _ _ 0 (by simpa using hj), h3]

/-! Broadcast-addition lemmas. -/

theorem badd_eq (A B : List (List ℚ)) (n m : ℕ) (hA : nrows A = n)
    (hB : nrows B = n) (hcA : ncols A = m) (hcB : ncols B = m) :
    ∃ R, badd A B = some R ∧ R.length = n ∧ (∀ r ∈ R, r.length = m) ∧
      ∀ i j, i < n → j < m → mget R i j = mget A i j + mget B i j := by
  have hcond : (nrows A = nrows B ∨ nrows A = 1 ∨ nrows B = 1) ∧
      (ncols A = ncols B ∨ ncols A = 1 ∨ ncols B = 1) :=
    ⟨Or.inl (by omega), Or.inl (by omega)⟩
  refine ⟨_, by rw [badd, if_pos hcond], ?_, ?_, ?_⟩
  · simp [hA, hB]
  · intro r hr
    rcases List.mem_map.mp hr with ⟨a, _, rfl⟩
    simp [hcA, hcB]
  · intro i j hi hj
    have hmr : max (nrows A) (nrows B) = n := by omega
    have hmc : max (ncols A) (ncols B) = m := by omega
    rw [hmr, hmc, mget_grid _ n m i j hi hj]
    have e1 : (if nrows A = 1 then 0 else i) = i := by
      rcases eq_or_ne (nrows A) 1 with h | h <;> simp [h] <;> omega
    have e2 : (if ncols A = 1 then 0 else j) = j := by
      rcases eq_or_ne (ncols A) 1 with h | h <;> simp [h] <;> omega
    have e3 : (if nrows B = 1 then 0 else i) = i := by
      rcases eq_or_ne (nrows B) 1 with h | h <;> simp [h] <;> omega
    have e4 : (if ncols B = 1 then 0 else j) = j := by
      rcases eq_or_ne (ncols B) 1 with h | h <;> simp [h] <;> omega
    rw [e1, e2, e3, e4]

theorem badd_scalar (A B : List (List ℚ)) (n : ℕ) (hA : nrows A = 1)
    (hcA : ncols A = 1) (hB : nrows B = n) (hcB : ncols B = n) (hn : 1 < n) :
    ∃ R, badd A B = some R ∧ R.length = n ∧ (∀ r ∈ R, r.length = n) ∧
      ∀ i j, i < n → j < n → mget R i j = mget A 0 0 + mget B i j := by
  have hcond : (nrows A = nrows B ∨ nrows A = 1 ∨ nrows B = 1) ∧
      (ncols A = ncols B ∨ ncols A = 1 ∨ ncols B = 1) :=
    ⟨Or.inr (Or.inl hA), Or.inr (Or.inl hcA)⟩
  refine ⟨_, by rw [badd, if_pos hcond], ?_, ?_, ?_⟩
  · simp [hA, hB]
    omega
  · intro r hr
    rcases List.mem_map.mp hr with ⟨a, _, rfl⟩
    simp [hcA, hcB]
    omega
  · intro i j hi hj
    have hmr : max (nrows A) (nrows B) = n := by omega
    have hmc : max (ncols A) (ncols B) = n := by omega
    rw [hmr, hmc, mget_grid _ n n i j hi hj]
    have e3 : (if nrows B = 1 then 0 else i) = i := by
      rcases eq_or_ne (nrows B) 1 with h | h <;> simp [h] <;> omega
    have e4 : (if ncols B = 1 then 0 else j) = j := by
      rcases eq_or_ne (ncols B) 1 with h | h <;> simp [h] <;> omega
    rw [hA, hcA, e3, e4]
    simp

theorem badd_none (A B : List (List ℚ)) (h1 : 1 < nrows A)
    (h2 : nrows A < nrows B) : badd A B = none := by
  rw [badd, if_neg]
  intro hcond
  rcases hcond.1 with h | h | h <;> omega

/-! Frame-to-numpy lemmas. -/

theorem frameMatrix_length (F : Frame) :
    (frameMatrix F).length = F.labels.length := by
  simp [frameMatrix]

theorem frameMatrix_rect (F : Frame) :
    ∀ r ∈ frameMatrix F, r.length = F.cols.length := by
  intro r hr
  rcases List.mem_map.mp hr with ⟨a, _, rfl⟩
  simp

theorem ncols_frameMatrix (F : Frame) (h : 0 < F.labels.length) :
    ncols (frameMatrix F) = F.cols.length := by
  obtain ⟨m, hm⟩ : ∃ m, F.labels.length = m + 1 := ⟨F.labels.length - 1, by omega⟩
  rw [frameMatrix, hm, List.range_succ_eq_map]
  simp [ncols]

theorem mget_frameMatrix (F : Frame) (i j : ℕ) (hi : i < F.labels.length)
    (hj : j < F.cols.length) : mget (frameMatrix F) i j = fget F i j := by
  have h2 : (List.range F.labels.length).getD i 0 = i := by
    rw [List.getD_eq_getElem?_getD, List.getElem?_range hi]
    rfl
  unfold mget frameMatrix
  rw [getD_map _ (List.range F.labels.length) _ _ 0 (by simpa using hi), h2,
    getD_map _ F.cols _ _ ("", []) hj]
  rfl

/-! Specific-risk stage lemmas. -/

theorem srJoined_length (srT : SrTable) (barrids : List String) :
    (srJoined srT barrids).length = barrids.length := by
  simp [srJoined]

theorem srJoined_getD (srT : SrTable) (barrids : List String) (i : ℕ)
    (hi : i < barrids.length) :
    (srJoined srT barrids).getD i 0 = srVal srT (barrids.getD i "") := by
  unfold srJoined
  rw [getD_map _ barrids _ _ "" hi]

theorem srDiagonal_length (srT : SrTable) (barrids : List String) :
    (srDiagonal srT barrids).length = barrids.length := by
  simp [srDiagonal, srJoined_length]

theorem srDiagonal_rect (srT : SrTable) (barrids : List String) :
    ∀ r ∈ srDiagonal srT barrids, r.length = barrids.length := by
  intro r hr
  rcases List.mem_map.mp hr with ⟨a, _, rfl⟩
  simp [srJoined_length]

theorem mget_srDiagonal (srT : SrTable) (barrids : List String) (i j : ℕ)
    (hi : i < barrids.length) (hj : j < barrids.length) :
    mget (srDiagonal srT barrids) i j
      = if i = j then (srVal srT (barrids.getD i "")) ^ 2 else 0 := by
  unfold srDiagonal
  rw [srJoined_length]
  rw [mget_grid _ barrids.length barrids.length i j hi hj]
  rcases eq_or_ne i j with h | h
  · rw [if_pos h, if_pos h, srJoined_getD srT barrids i hi]
  · rw [if_neg h, if_neg h]
    norm_num

theorem sr_frame_cols (srT : SrTable) (barrids : List String) (h : barrids.Nodup) :
    (construct_specific_risk_matrix srT barrids).cols
      = (withIdx barrids).map (fun p => (p.2, colOf (srDiagonal srT barrids) p.1)) :=
  packaged_cols barrids _ h

theorem sr_frame_cols_length (srT : SrTable) (barrids : List String)
    (h : barrids.Nodup) :
    (construct_specific_risk_matrix srT barrids).cols.length = barrids.length := by
  rw [sr_frame_cols srT barrids h, List.length_map, withIdx_length]

theorem fget_sr_frame (srT : SrTable) (barrids : List String) (h : barrids.Nodup)
    (i j : ℕ) (hi : i < barrids.length) (hj : j < barrids.length) :
    fget (construct_specific_risk_matrix srT barrids) i j
      = if i = j then (srVal srT (barrids.getD i "")) ^ 2 else 0 := by
  unfold fget
  rw [show (construct_specific_risk_matrix srT barrids).cols
      = (withIdx barrids).map (fun p => (p.2, colOf (srDiagonal srT barrids) p.1))
    from sr_frame_cols srT barrids h]
  rw [packaged_getD barrids _ j _ hj]
  rw [colOf_getD _ j i (by rw [srDiagonal_length]; exact hi)]
  exact mget_srDiagonal srT barrids i j hi hj

theorem idioMatrix_length (srT : SrTable) (barrids : List String) :
    nrows (idioMatrix srT barrids) = barrids.length := by
  unfold idioMatrix nrows
  rw [frameMatrix_length]
  rfl

theorem idioMatrix_ncols (srT : SrTable) (barrids : List String)
    (h : barrids.Nodup) (hN : 0 < barrids.length) :
    ncols (idioMatrix srT barrids) = barrids.length := by
  unfold idioMatrix
  rw [ncols_frameMatrix _ hN, sr_frame_cols_length srT barrids h]

theorem mget_idioMatrix (srT : SrTable) (barrids : List String) (h : barrids.Nodup)
    (i j : ℕ) (hi : i < barrids.length) (hj : j < barrids.length) :
    mget (idioMatrix srT barrids) i j
      = if i = j then (srVal srT (barrids.getD i "")) ^ 2 else 0 := by
  unfold idioMatrix
  rw [mget_frameMatrix _ i j hi (by rw [sr_frame_cols_length srT barrids h]; exact hj)]
  exact fget_sr_frame srT barrids h i j hi hj

/-! Factor-covariance stage lemmas. -/

theorem covFactorIds_perm (T : CovTable) :
    (covFactorIds T).Perm (T.rows.map Prod.fst) := by
  unfold covFactorIds covRowsSorted
  exact (sortRows_perm T.rows).map Prod.fst

theorem covFactorIds_length (T : CovTable) :
    (covFactorIds T).length = T.rows.length := by
  rw [(covFactorIds_perm T).length_eq, List.length_map]

theorem covFactorIds_nodup (T : CovTable) (h : (T.rows.map Prod.fst).Nodup) :
    (covFactorIds T).Nodup :=
  ((covFactorIds_perm T).symm.nodup h)

theorem fcov_frame_labels (T : CovTable) :
    (construct_factor_covariance_matrix T).labels = covFactorIds T := rfl

theorem fcov_frame_cols (T : CovTable) (h : (T.rows.map Prod.fst).Nodup) :
    (construct_factor_covariance_matrix T).cols
      = (withIdx (covFactorIds T)).map
        (fun p => (p.2, (List.range (covRowsSorted T).length).map
          (fun i => (covMirrored T i p.1).getD 0))) :=
  packaged_cols (covFactorIds T) _ (covFactorIds_nodup T h)

theorem fcov_frame_cols_length (T : CovTable) (h : (T.rows.map Prod.fst).Nodup) :
    (construct_factor_covariance_matrix T).cols.length = T.rows.length := by
  rw [fcov_frame_cols T h, List.length_map, withIdx_length, covFactorIds_length]

theorem fcovMatrix_length (T : CovTable) :
    (fcovMatrix T).length = T.rows.length := by
  unfold fcovMatrix
  rw [frameMatrix_length, fcov_frame_labels, covFactorIds_length]

theorem fcovMatrix_ncols (T : CovTable) (h : (T.rows.map Prod.fst).Nodup)
    (hK : 0 < T.rows.length) : ncols (fcovMatrix T) = T.rows.length := by
  unfold fcovMatrix
  rw [ncols_frameMatrix _ (by rw [fcov_frame_labels, covFactorIds_length]; exact hK),
    fcov_frame_cols_length T h]

/-! Exposure stage lemmas. -/

theorem exposuresMatrix_length (T : ExpoTable) (barrids : List String) :
    (exposuresMatrix T barrids).length
      = (construct_factor_exposure_matrix T barrids).length := by
  simp [exposuresMatrix]

/-! Dispatch lemmas for the composer's match on the broadcast addition. -/

theorem construct_eq_some (expoT : ExpoTable) (covT : CovTable) (srT : SrTable)
    (barrids : List String) (R : List (List ℚ))
    (h : badd (matmul (matmul (exposuresMatrix expoT barrids) (fcovMatrix covT))
        (transposeM (exposuresMatrix expoT barrids))) (idioMatrix srT barrids)
      = some R) :
    construct_covariance_matrix expoT covT srT barrids
      = mkFrame barrids (dictOf ((withIdx barrids).map
          (fun p => (p.2, colOf (scaleDiv R ((100 : ℚ) ^ 2)) p.1)))) := by
  unfold construct_covariance_matrix
  rw [h]

theorem construct_eq_none (expoT : ExpoTable) (covT : CovTable) (srT : SrTable)
    (barrids : List String)
    (h : badd (matmul (matmul (exposuresMatrix expoT barrids) (fcovMatrix covT))
        (transposeM (exposuresMatrix expoT barrids))) (idioMatrix srT barrids)
      = none) :
    construct_covariance_matrix expoT covT srT barrids = none := by
  unfold construct_covariance_matrix
  rw [h]

/-- The systematic term: entry `(i, j)` of `X @ Σf @ X.T` in closed form. -/
theorem systematic_entry (E C : List (List ℚ)) (K : ℕ)
    (hCl : C.length = K) (hCc : ncols C = K) (hEc : ncols E = K) (hK : 0 < K)
    (i j : ℕ) (hi : i < E.length) (hj : j < E.length) :
    mget (matmul (matmul E C) (transposeM E)) i j
      = ∑ k ∈ Finset.range K, ∑ l ∈ Finset.range K,
          mget E i k * mget C k l * mget E j l := by
  have hECl : (matmul E C).length = E.length := matmul_length E C
  have htEl : (transposeM E).length = K := by rw [transposeM_length, hEc]
  have htEc : ncols (transposeM E) = E.length := ncols_transposeM E (by omega)
  rw [mget_matmul _ _ i j (by omega) (by omega), htEl]
  calc
    ∑ k ∈ Finset.range K,
        mget (matmul E C) i k * mget (transposeM E) k j
      = ∑ k ∈ Finset.range K,
          (∑ l ∈ Finset.range K, mget E i l * mget C l k) * mget E j k := by
        apply Finset.sum_congr rfl
        intro k hk
        have hk2 : k < K := Finset.mem_range.mp hk
        rw [mget_matmul _ _ i k (by omega) (by omega), hCl,
          mget_transposeM _ k j (by omega) (by omega)]
    _ = ∑ k ∈ Finset.range K, ∑ l ∈ Finset.range K,
          mget E i l * mget C l k * mget E j k := by
        apply Finset.sum_congr rfl
        intro k _
        rw [Finset.sum_mul]
    _ = ∑ l ∈ Finset.range K, ∑ k ∈ Finset.range K,
          mget E i l * mget C l k * mget E j k := Finset.sum_comm

/-- Packaging lemma: when the broadcast addition succeeds with an
`N`-row result, the composer divides it by `100^2` and labels rows and
columns with the caller-supplied barrids. -/
theorem construct_package (expoT : ExpoTable) (covT : CovTable) (srT : SrTable)
    (barrids : List String) (R : List (List ℚ))
    (hb : barrids.Nodup)
    (hs : badd (matmul (matmul (exposuresMatrix expoT barrids) (fcovMatrix covT))
        (transposeM (exposuresMatrix expoT barrids))) (idioMatrix srT barrids)
      = some R)
    (hRl : R.length = barrids.length) :
    ∃ F, construct_covariance_matrix expoT covT srT barrids = some F ∧
      F.labels = barrids ∧
      F.cols.map Prod.fst = barrids ∧
      (∀ c ∈ F.cols, c.2.length = barrids.length) ∧
      ∀ i j, i < barrids.length → j < barrids.length →
        fget F i j = mget R i j / 100 ^ 2 := by
  have hcols := packaged_cols barrids
    (fun p => colOf (scaleDiv R ((100 : ℚ) ^ 2)) p.1) hb
  have hcmlen : (scaleDiv R ((100 : ℚ) ^ 2)).length = barrids.length := by
    rw [scaleDiv_length, hRl]
  have hmk : mkFrame barrids (dictOf ((withIdx barrids).map
      (fun p => (p.2, colOf (scaleDiv R ((100 : ℚ) ^ 2)) p.1))))
      = some ⟨barrids, (withIdx barrids).map
          (fun p => (p.2, colOf (scaleDiv R ((100 : ℚ) ^ 2)) p.1))⟩ := by
    rw [hcols]
    unfold mkFrame
    rw [if_pos]
    rw [List.all_eq_true]
    intro c hc
    rcases List.mem_map.mp hc with ⟨p, _, rfl⟩
    simp [colOf_length, hcmlen]
  refine ⟨_, (construct_eq_some expoT covT srT barrids R hs).trans hmk, rfl,
    packaged_map_fst barrids _, ?_, ?_⟩
  · intro c hc
    rcases List.mem_map.mp hc with ⟨p, _, rfl⟩
    simp [colOf_length, hcmlen]
  · intro i j hi hj
    unfold fget
    rw [packaged_getD barrids _ j _ hj]
    rw [colOf_getD _ j i (by omega)]
    rw [mget_scaleDiv]

/-- Master lemma: on aligned inputs (every requested asset contributes one
exposure row, exposure rows have one cell per factor, the requested barrid
list and the factor ids are duplicate-free), the composer succeeds and its
output frame is the caller-labelled matrix
`(X @ Σf @ X.T + D) / 100^2` entry by entry. -/
theorem construct_entries (expoT : ExpoTable) (covT : CovTable) (srT : SrTable)
    (barrids : List String)
    (hb : barrids.Nodup)
    (hf : (covT.rows.map Prod.fst).Nodup)
    (hMN : (exposuresMatrix expoT barrids).length = barrids.length)
    (hrect : ∀ r ∈ exposuresMatrix expoT barrids, r.length = covT.rows.length)
    (hK : 0 < covT.rows.length)
    (hN : 0 < barrids.length) :
    ∃ F, construct_covariance_matrix expoT covT srT barrids = some F ∧
      F.labels = barrids ∧
      F.cols.map Prod.fst = barrids ∧
      (∀ c ∈ F.cols, c.2.length = barrids.length) ∧
      ∀ i j, i < barrids.length → j < barrids.length →
        fget F i j =
          ((∑ k ∈ Finset.range covT.rows.length,
              ∑ l ∈ Finset.range covT.rows.length,
                mget (exposuresMatrix expoT barrids) i k *
                  mget (fcovMatrix covT) k l *
                  mget (exposuresMatrix expoT barrids) j l)
            + (if i = j then (srVal srT (barrids.getD i "")) ^ 2 else 0)) / 100 ^ 2 := by
  have hE : (exposuresMatrix expoT barrids).length = barrids.length := hMN
  have hEc : ncols (exposuresMatrix expoT barrids) = covT.rows.length :=
    ncols_of_rect _ _ hrect (by omega)
  have hsysl : nrows (matmul (matmul (exposuresMatrix expoT barrids)
      (fcovMatrix covT)) (transposeM (exposuresMatrix expoT barrids)))
      = barrids.length := by
    unfold nrows
    rw [matmul_length, matmul_length, hE]
  have hsysc : ncols (matmul (matmul (exposuresMatrix expoT barrids)
      (fcovMatrix covT)) (transposeM (exposuresMatrix expoT barrids)))
      = barrids.length := by
    rw [ncols_matmul _ _ (by rw [matmul_length]; omega),
      ncols_transposeM _ (by omega), hE]
  obtain ⟨R, hs, hRl, hRrect, hRe⟩ := badd_eq _ (idioMatrix srT barrids)
    barrids.length barrids.length hsysl (idioMatrix_length srT barrids) hsysc
    (idioMatrix_ncols srT barrids hb hN)
  obtain ⟨F, hF1, hF2, hF3, hF4, hF5⟩ :=
    construct_package expoT covT srT barrids R hb hs hRl
  refine ⟨F, hF1, hF2, hF3, hF4, ?_⟩
  intro i j hi hj
  rw [hF5 i j hi hj]
  rw [hRe i j hi hj]
  rw [systematic_entry (exposuresMatrix expoT barrids) (fcovMatrix covT)
    covT.rows.length (fcovMatrix_length covT) (fcovMatrix_ncols covT hf hK)
    hEc hK i j (by omega) (by omega)]
  rw [mget_idioMatrix srT barrids hb i j hi hj]

theorem srVal_of_absent (srT : SrTable) (b : String) (h : b ∉ srT.map Prod.fst) :
    srVal srT b = 0 := by
  unfold srVal
  have hnone : srT.find? (fun r => r.1 == b) = none := by
    rw [List.find?_eq_none]
    intro x hx
    simp only [beq_iff_eq]
    intro hc
    exact h (hc ▸ List.mem_map_of_mem Prod.fst hx)
  rw [hnone]

/-! The claims. -/

/-- C4: for correctly aligned exposures X, factor covariance Σf and diagonal
specific variance D, the composed result equals `(X @ Σf @ X.T + D) / 10000`
entry by entry — every entry of the percent-squared raw matrix is divided by
`100^2`. -/
theorem claim_C4 (expoT : ExpoTable) (covT : CovTable) (srT : SrTable)
    (barrids : List String)
    (hb : barrids.Nodup)
    (hf : (covT.rows.map Prod.fst).Nodup)
    (hMN : (exposuresMatrix expoT barrids).length = barrids.length)
    (hrect : ∀ r ∈ exposuresMatrix expoT barrids, r.length = covT.rows.length)
    (hK : 0 < covT.rows.length)
    (hN : 0 < barrids.length) :
    ∃ F, construct_covariance_matrix expoT covT srT barrids = some F ∧
      ∀ i j, i < barrids.length → j < barrids.length →
        fget F i j =
          ((∑ k ∈ Finset.range covT.rows.length,
              ∑ l ∈ Finset.range covT.rows.length,
                mget (exposuresMatrix expoT barrids) i k *
                  mget (fcovMatrix covT) k l *
                  mget (exposuresMatrix expoT barrids) j l)
            + (if i = j then (srVal srT (barrids.getD i "")) ^ 2 else 0)) / 100 ^ 2 := by
  obtain ⟨F, h1, _, _, _, h5⟩ :=
    construct_entries expoT covT srT barrids hb hf hMN hrect hK hN
  exact ⟨F, h1, h5⟩

/-- C4 witness: the spec's end-to-end scenario — assets `A`, `B`, one factor
with exposures 1 and 2, factor variance 2500, zero specific risk — yields
exactly `[[0.25, 0.5], [0.5, 1.0]]`, and the general theorem applies to it. -/
theorem claim_C4_witness :
    (construct_covariance_matrix egExpo egCov egSr ["A", "B"]
      = some ⟨["A", "B"], [("A", [1/4, 1/2]), ("B", [1/2, 1])]⟩) ∧
    (∃ F, construct_covariance_matrix egExpo egCov egSr ["A", "B"] = some F ∧
      ∀ i j, i < (["A", "B"] : List String).length →
        j < (["A", "B"] : List String).length →
        fget F i j =
          ((∑ k ∈ Finset.range egCov.rows.length,
              ∑ l ∈ Finset.range egCov.rows.length,
                mget (exposuresMatrix egExpo ["A", "B"]) i k *
                  mget (fcovMatrix egCov) k l *
                  mget (exposuresMatrix egExpo ["A", "B"]) j l)
            + (if i = j then (srVal egSr ((["A", "B"] : List String).getD i "")) ^ 2
               else 0)) / 100 ^ 2) := by
  constructor
  · simp +decide [construct_covariance_matrix, construct_factor_exposure_matrix,
      construct_factor_covariance_matrix, construct_specific_risk_matrix,
      covSortedCols, covRowsSorted, covFactorIds, covUtm, covMirrored,
      srJoined, srDiagonal, srVal, exposuresMatrix, fcovMatrix, idioMatrix,
      sortRows, sortStrings, List.insertionSort, List.orderedInsert, strLE, keyLE,
      mget, nrows, ncols, matmul, transposeM, badd, scaleDiv, colOf,
      dictOf, dictUpd, mkFrame, frameMatrix, withIdx, idxFrom,
      Finset.sum_range_succ, egExpo, egCov, egSr, List.range_succ]
    norm_num
  · exact claim_C4 egExpo egCov egSr ["A", "B"] (by decide) (by decide) (by decide)
      (by decide) (by decide) (by decide)

/-- C6: for correctly aligned stage outputs with a symmetric factor
covariance matrix (the specific-variance stage output is diagonal by
construction), the result matrix satisfies `M[i][j] = M[j][i]`. -/
theorem claim_C6 (expoT : ExpoTable) (covT : CovTable) (srT : SrTable)
    (barrids : List String)
    (hb : barrids.Nodup)
    (hf : (covT.rows.map Prod.fst).Nodup)
    (hMN : (exposuresMatrix expoT barrids).length = barrids.length)
    (hrect : ∀ r ∈ exposuresMatrix expoT barrids, r.length = covT.rows.length)
    (hK : 0 < covT.rows.length)
    (hN : 0 < barrids.length)
    (hsym : ∀ k l, k < covT.rows.length → l < covT.rows.length →
      mget (fcovMatrix covT) k l = mget (fcovMatrix covT) l k) :
    ∃ F, construct_covariance_matrix expoT covT srT barrids = some F ∧
      ∀ i j, i < barrids.length → j < barrids.length → fget F i j = fget F j i := by
  obtain ⟨F, h1, _, _, _, h5⟩ :=
    construct_entries expoT covT srT barrids hb hf hMN hrect hK hN
  refine ⟨F, h1, ?_⟩
  intro i j hi hj
  rw [h5 i j hi hj, h5 j i hj hi]
  have hD : (if i = j then (srVal srT (barrids.getD i "")) ^ 2 else 0)
      = (if j = i then (srVal srT (barrids.getD j "")) ^ 2 else 0) := by
    rcases eq_or_ne i j with h | h
    · subst h
      rfl
    · rw [if_neg h, if_neg (Ne.symm h)]
  have hnum : ∑ k ∈ Finset.range covT.rows.length,
        ∑ l ∈ Finset.range covT.rows.length,
          mget (exposuresMatrix expoT barrids) i k * mget (fcovMatrix covT) k l *
            mget (exposuresMatrix expoT barrids) j l
      = ∑ k ∈ Finset.range covT.rows.length,
          ∑ l ∈ Finset.range covT.rows.length,
            mget (exposuresMatrix expoT barrids) j k * mget (fcovMatrix covT) k l *
              mget (exposuresMatrix expoT barrids) i l := by
    calc
      ∑ k ∈ Finset.range covT.rows.length,
          ∑ l ∈ Finset.range covT.rows.length,
            mget (exposuresMatrix expoT barrids) i k * mget (fcovMatrix covT) k l *
              mget (exposuresMatrix expoT barrids) j l
        = ∑ k ∈ Finset.range covT.rows.length,
            ∑ l ∈ Finset.range covT.rows.length,
              mget (exposuresMatrix expoT barrids) j l * mget (fcovMatrix covT) l k *
                mget (exposuresMatrix expoT barrids) i k := by
          apply Finset.sum_congr rfl
          intro k hk
          apply Finset.sum_congr rfl
          intro l hl
          rw [hsym k l (Finset.mem_range.mp hk) (Finset.mem_range.mp hl)]
          ring
      _ = ∑ l ∈ Finset.range covT.rows.length,
            ∑ k ∈ Finset.range covT.rows.length,
              mget (exposuresMatrix expoT barrids) j l * mget (fcovMatrix covT) l k *
                mget (exposuresMatrix expoT barrids) i k := Finset.sum_comm
  rw [hnum, hD]

/-- C6 witness: the end-to-end scenario's inputs satisfy the alignment and
symmetry hypotheses, so its result matrix is symmetric. -/
theorem claim_C6_witness :
    ∃ F, construct_covariance_matrix egExpo egCov egSr ["A", "B"] = some F ∧
      ∀ i j, i < (["A", "B"] : List String).length →
        j < (["A", "B"] : List String).length → fget F i j = fget F j i := by
  exact claim_C6 egExpo egCov egSr ["A", "B"] (by decide) (by decide) (by decide)
    (by decide) (by decide) (by decide)
    (by
      intro k l hk hl
      have hk0 : k = 0 := by
        have : egCov.rows.length = 1 := by decide
        omega
      have hl0 : l = 0 := by
        have : egCov.rows.length = 1 := by decide
        omega
      subst hk0
      subst hl0
      rfl)

/-- C7: the specific-risk stage left-joins the requested barrids against the
loaded table, assigns specific risk 0.0 to every requested asset absent from
the table, and returns an N x N matrix whose diagonal entries are the squared
specific risks and whose off-diagonal entries are zero, labelled by the
requested barrids. -/
theorem claim_C7 (srT : SrTable) (barrids : List String) (hb : barrids.Nodup) :
    (construct_specific_risk_matrix srT barrids).labels = barrids ∧
    (construct_specific_risk_matrix srT barrids).cols.map Prod.fst = barrids ∧
    (∀ c ∈ (construct_specific_risk_matrix srT barrids).cols,
      c.2.length = barrids.length) ∧
    (∀ i j, i < barrids.length → j < barrids.length →
      fget (construct_specific_risk_matrix srT barrids) i j
        = if i = j then (srVal srT (barrids.getD i "")) ^ 2 else 0) ∧
    (∀ b ∈ barrids, b ∉ srT.map Prod.fst → srVal srT b = 0) := by
  refine ⟨rfl, ?_, ?_, ?_, ?_⟩
  · rw [sr_frame_cols srT barrids hb]
    exact packaged_map_fst barrids _
  · intro c hc
    rw [sr_frame_cols srT barrids hb] at hc
    rcases List.mem_map.mp hc with ⟨p, _, rfl⟩
    simp [colOf_length, srDiagonal_length]
  · intro i j hi hj
    exact fget_sr_frame srT barrids hb i j hi hj
  · intro b _ hab
    exact srVal_of_absent srT b hab

/-- C7 witness: requested assets `A`, `B` against a table holding only `A`
(risk 3): `B` gets specific risk 0, the output is the 2 x 2 diagonal matrix
of squared risks labelled `A`, `B`. -/
theorem claim_C7_witness :
    (construct_specific_risk_matrix [("A", some 3)] ["A", "B"]).labels
        = ["A", "B"] ∧
    (construct_specific_risk_matrix [("A", some 3)] ["A", "B"]).cols.map Prod.fst
        = ["A", "B"] ∧
    (∀ c ∈ (construct_specific_risk_matrix [("A", some 3)] ["A", "B"]).cols,
      c.2.length = (["A", "B"] : List String).length) ∧
    (∀ i j, i < (["A", "B"] : List String).length →
      j < (["A", "B"] : List String).length →
      fget (construct_specific_risk_matrix [("A", some 3)] ["A", "B"]) i j
        = if i = j
          then (srVal [("A", some 3)] ((["A", "B"] : List String).getD i "")) ^ 2
          else 0) ∧
    (∀ b ∈ (["A", "B"] : List String), b ∉ ([("A", some 3)] : SrTable).map Prod.fst →
      srVal [("A", some 3)] b = 0) :=
  claim_C7 [("A", some 3)] ["A", "B"] (by decide)

/-- C8: two runs that differ only in one requested asset's specific-risk
value (strictly increased from a nonnegative value) produce matrices that
agree everywhere except that asset's diagonal entry, which strictly
increases. -/
theorem claim_C8 (expoT : ExpoTable) (covT : CovTable) (srT srT2 : SrTable)
    (barrids : List String) (i0 : ℕ)
    (hb : barrids.Nodup)
    (hf : (covT.rows.map Prod.fst).Nodup)
    (hMN : (exposuresMatrix expoT barrids).length = barrids.length)
    (hrect : ∀ r ∈ exposuresMatrix expoT barrids, r.length = covT.rows.length)
    (hK : 0 < covT.rows.length)
    (hi0 : i0 < barrids.length)
    (hv0 : 0 ≤ srVal srT (barrids.getD i0 ""))
    (hlt : srVal srT (barrids.getD i0 "") < srVal srT2 (barrids.getD i0 ""))
    (hoth : ∀ a ∈ barrids, a ≠ barrids.getD i0 "" → srVal srT2 a = srVal srT a) :
    ∃ F F2, construct_covariance_matrix expoT covT srT barrids = some F ∧
      construct_covariance_matrix expoT covT srT2 barrids = some F2 ∧
      (∀ p q, p < barrids.length → q < barrids.length → ¬(p = i0 ∧ q = i0) →
        fget F2 p q = fget F p q) ∧
      fget F i0 i0 < fget F2 i0 i0 := by
  have hN : 0 < barrids.length := by omega
  obtain ⟨F, h1, _, _, _, h5⟩ :=
    construct_entries expoT covT srT barrids hb hf hMN hrect hK hN
  obtain ⟨F2, g1, _, _, _, g5⟩ :=
    construct_entries expoT covT srT2 barrids hb hf hMN hrect hK hN
  refine ⟨F, F2, h1, g1, ?_, ?_⟩
  · intro p q hp hq hpq
    rw [h5 p q hp hq, g5 p q hp hq]
    rcases eq_or_ne p q with rfl | hne
    · have hpne : p ≠ i0 := fun hc => hpq ⟨hc, hc⟩
      have hmem : barrids.getD p "" ∈ barrids := by
        rw [List.getD_eq_getElem barrids "" hp]
        exact List.getElem_mem hp
      have hvne : barrids.getD p "" ≠ barrids.getD i0 "" := by
        rw [List.getD_eq_getElem barrids "" hp, List.getD_eq_getElem barrids "" hi0]
        intro hc
        exact hpne ((List.Nodup.getElem_inj_iff hb).mp hc)
      rw [hoth (barrids.getD p "") hmem hvne]
    · rw [if_neg hne, if_neg hne]
  · rw [h5 i0 i0 hi0 hi0, g5 i0 i0 hi0 hi0, if_pos rfl, if_pos rfl]
    rw [div_lt_div_right (by norm_num)]
    apply add_lt_add_left
    exact pow_lt_pow_left hlt hv0 (by norm_num)

/-- C8 witness: raising asset `A`'s specific risk from 0 to 1 while holding
all else fixed changes only the `(A, A)` diagonal entry, strictly upward. -/
theorem claim_C8_witness :
    ∃ F F2, construct_covariance_matrix egExpo egCov egSr ["A", "B"] = some F ∧
      construct_covariance_matrix egExpo egCov egSrA ["A", "B"] = some F2 ∧
      (∀ p q, p < (["A", "B"] : List String).length →
        q < (["A", "B"] : List String).length → ¬(p = 0 ∧ q = 0) →
        fget F2 p q = fget F p q) ∧
      fget F 0 0 < fget F2 0 0 :=
  claim_C8 egExpo egCov egSr egSrA ["A", "B"] 0 (by decide) (by decide) (by decide)
    (by decide) (by decide) (by decide) (by decide) (by decide) (by decide)

/-- C1 counterexample: called with the duplicate-free but unsorted asset
list `["B", "A"]` (both assets present in every source), the function
labels rows and columns `["B", "A"]` — the caller-supplied order — and not
the ascending-sorted list `["A", "B"]` the claim requires. -/
theorem claim_C1_counterexample :
    (construct_covariance_matrix egExpo egCov egSr ["B", "A"]).map Frame.labels
        = some ["B", "A"] ∧
    (construct_covariance_matrix egExpo egCov egSr ["B", "A"]).map
        (fun F => F.cols.map Prod.fst) = some ["B", "A"] ∧
    sortStrings ["B", "A"] = ["A", "B"] ∧
    (["B", "A"] : List String) ≠ ["A", "B"] := by
  decide

/-- C1 (amended): for a duplicate-free asset list whose assets are all
present in the sources (aligned inputs), the result is an N x N matrix
(`N = len(assetIds)`) whose row labels and column labels both equal the
caller-supplied asset list in its original caller-supplied order — not
resorted — and identical on rows and columns. -/
theorem claim_C1 (expoT : ExpoTable) (covT : CovTable) (srT : SrTable)
    (barrids : List String)
    (hb : barrids.Nodup)
    (hf : (covT.rows.map Prod.fst).Nodup)
    (hMN : (exposuresMatrix expoT barrids).length = barrids.length)
    (hrect : ∀ r ∈ exposuresMatrix expoT barrids, r.length = covT.rows.length)
    (hK : 0 < covT.rows.length)
    (hN : 0 < barrids.length) :
    ∃ F, construct_covariance_matrix expoT covT srT barrids = some F ∧
      F.labels = barrids ∧
      F.cols.map Prod.fst = barrids ∧
      F.labels.length = barrids.length ∧
      F.cols.length = barrids.length ∧
      ∀ c ∈ F.cols, c.2.length = barrids.length := by
  obtain ⟨F, h1, h2, h3, h4, _⟩ :=
    construct_entries expoT covT srT barrids hb hf hMN hrect hK hN
  refine ⟨F, h1, h2, h3, by rw [h2], ?_, h4⟩
  have := congrArg List.length h3
  rw [List.length_map] at this
  exact this

/-- C1 witness: the amended claim applies to the unsorted call
`["B", "A"]`. -/
theorem claim_C1_witness :
    ∃ F, construct_covariance_matrix egExpo egCov egSr ["B", "A"] = some F ∧
      F.labels = ["B", "A"] ∧
      F.cols.map Prod.fst = ["B", "A"] ∧
      F.labels.length = (["B", "A"] : List String).length ∧
      F.cols.length = (["B", "A"] : List String).length ∧
      ∀ c ∈ F.cols, c.2.length = (["B", "A"] : List String).length :=
  claim_C1 egExpo egCov egSr ["B", "A"] (by decide) (by decide) (by decide)
    (by decide) (by decide) (by decide)

/-- C2 counterexample: requesting `["A", "B"]` against an exposure source
holding rows only for `A`, the exposure-matrix stage returns one row, not
two, and `B` is absent from its row labels — the asset is dropped, not
zero-filled. -/
theorem claim_C2_counterexample :
    (construct_factor_exposure_matrix egExpoA ["A", "B"]).length ≠ 2 ∧
    "B" ∉ (construct_factor_exposure_matrix egExpoA ["A", "B"]).map Prod.fst := by
  decide

/-- C2 (amended): the exposure-matrix stage keeps exactly the requested
assets that are present in the exposure source — one row per matching
source row, null cells zero-filled — and drops every requested asset with
zero exposure rows: a row label occurs iff the asset is both requested and
present in the source. -/
theorem claim_C2 (T : ExpoTable) (barrids : List String) :
    (∀ b, b ∈ (construct_factor_exposure_matrix T barrids).map Prod.fst ↔
      (b ∈ barrids ∧ b ∈ T.rows.map Prod.fst)) ∧
    (∀ r ∈ T.rows, r.1 ∈ barrids →
      (r.1, r.2.map (fun c => c.getD 0)) ∈ construct_factor_exposure_matrix T barrids) ∧
    (construct_factor_exposure_matrix T barrids).length
      = (T.rows.filter (fun r => barrids.contains r.1)).length := by
  unfold construct_factor_exposure_matrix
  refine ⟨?_, ?_, ?_⟩
  · intro b
    rw [((sortRows_perm _).map Prod.fst).mem_iff]
    constructor
    · intro hmem
      rcases List.mem_map.mp hmem with ⟨r, hr, rfl⟩
      rcases List.mem_map.mp hr with ⟨s, hs, rfl⟩
      rcases List.mem_filter.mp hs with ⟨hsrows, hscont⟩
      refine ⟨?_, List.mem_map_of_mem Prod.fst hsrows⟩
      simpa [List.contains, List.elem_iff] using hscont
    · rintro ⟨hbar, hrows⟩
      rcases List.mem_map.mp hrows with ⟨s, hs, rfl⟩
      have hmem : s ∈ List.filter (fun r => barrids.contains r.1) T.rows :=
        List.mem_filter.mpr ⟨hs, by simpa [List.contains, List.elem_iff] using hbar⟩
      have hin := List.mem_map_of_mem
        (Prod.fst ∘ (fun r : String × List (Option ℚ) =>
          (r.1, List.map (fun c => c.getD 0) r.2))) hmem
      rw [List.map_map]
      simpa using hin
  · intro r hr hbar
    rw [(sortRows_perm _).mem_iff]
    exact List.mem_map_of_mem _ (List.mem_filter.mpr
      ⟨hr, by simpa [List.contains, List.elem_iff] using hbar⟩)
  · rw [(sortRows_perm _).length_eq, List.length_map]

/-- C9: with M the number of requested assets that have exposure rows, if
`1 < M < N` the addition of the M x M systematic term to the N x N specific
risk matrix is a numpy broadcast error and the function returns nothing;
but if `M = 1 < N`, the 1 x 1 systematic term broadcasts silently and an
N x N matrix is returned whose every entry is the single scalar systematic
variance plus the entry of the specific-risk matrix, scaled — no error. -/
theorem claim_C9 (expoT : ExpoTable) (covT : CovTable) (srT : SrTable)
    (barrids : List String) :
    (1 < (exposuresMatrix expoT barrids).length →
      (exposuresMatrix expoT barrids).length < barrids.length →
      construct_covariance_matrix expoT covT srT barrids = none) ∧
    ((exposuresMatrix expoT barrids).length = 1 →
      1 < barrids.length →
      barrids.Nodup →
      (covT.rows.map Prod.fst).Nodup →
      (∀ r ∈ exposuresMatrix expoT barrids, r.length = covT.rows.length) →
      0 < covT.rows.length →
      ∃ F, construct_covariance_matrix expoT covT srT barrids = some F ∧
        F.labels = barrids ∧
        ∀ i j, i < barrids.length → j < barrids.length →
          fget F i j =
            ((∑ k ∈ Finset.range covT.rows.length,
                ∑ l ∈ Finset.range covT.rows.length,
                  mget (exposuresMatrix expoT barrids) 0 k *
                    mget (fcovMatrix covT) k l *
                    mget (exposuresMatrix expoT barrids) 0 l)
              + (if i = j then (srVal srT (barrids.getD i "")) ^ 2 else 0))
            / 100 ^ 2) := by
  constructor
  · intro hM1 hMN
    apply construct_eq_none
    apply badd_none
    · unfold nrows
      rw [matmul_length, matmul_length]
      exact hM1
    · rw [show nrows (matmul (matmul (exposuresMatrix expoT barrids)
          (fcovMatrix covT)) (transposeM (exposuresMatrix expoT barrids)))
        = (exposuresMatrix expoT barrids).length from by
          unfold nrows; rw [matmul_length, matmul_length]]
      rw [idioMatrix_length]
      exact hMN
  · intro hM1 hN hb hf hrect hK
    have hEc : ncols (exposuresMatrix expoT barrids) = covT.rows.length :=
      ncols_of_rect _ _ hrect (by omega)
    have hsysl : nrows (matmul (matmul (exposuresMatrix expoT barrids)
        (fcovMatrix covT)) (transposeM (exposuresMatrix expoT barrids))) = 1 := by
      unfold nrows
      rw [matmul_length, matmul_length, hM1]
    have hsysc : ncols (matmul (matmul (exposuresMatrix expoT barrids)
        (fcovMatrix covT)) (transposeM (exposuresMatrix expoT barrids))) = 1 := by
      rw [ncols_matmul _ _ (by rw [matmul_length]; omega),
        ncols_transposeM _ (by omega), hM1]
    obtain ⟨R, hs, hRl, hRrect, hRe⟩ := badd_scalar _ (idioMatrix srT barrids)
      barrids.length hsysl hsysc (idioMatrix_length srT barrids)
      (idioMatrix_ncols srT barrids hb (by omega)) hN
    obtain ⟨F, hF1, hF2, hF3, hF4, hF5⟩ :=
      construct_package expoT covT srT barrids R hb hs hRl
    refine ⟨F, hF1, hF2, ?_⟩
    intro i j hi hj
    rw [hF5 i j hi hj]
    rw [hRe i j hi hj]
    rw [systematic_entry (exposuresMatrix expoT barrids) (fcovMatrix covT)
      covT.rows.length (fcovMatrix_length covT) (fcovMatrix_ncols covT hf hK)
      hEc hK 0 0 (by omega) (by omega)]
    rw [mget_idioMatrix srT barrids hb i j hi hj]

/-- C9 witness: requesting `["A", "B", "C"]` against sources with exposure
rows only for `A` and `B` (M = 2 < N = 3) yields no result; requesting
`["A", "B"]` with exposure rows only for `A` (M = 1 < N = 2) silently
yields a 2 x 2 matrix of broadcast entries. -/
theorem claim_C9_witness :
    construct_covariance_matrix egExpo egCov egSr3 ["A", "B", "C"] = none ∧
    (∃ F, construct_covariance_matrix egExpoA egCov egSr ["A", "B"] = some F ∧
      F.labels = ["A", "B"] ∧
      ∀ i j, i < (["A", "B"] : List String).length →
        j < (["A", "B"] : List String).length →
        fget F i j =
          ((∑ k ∈ Finset.range egCov.rows.length,
              ∑ l ∈ Finset.range egCov.rows.length,
                mget (exposuresMatrix egExpoA ["A", "B"]) 0 k *
                  mget (fcovMatrix egCov) k l *
                  mget (exposuresMatrix egExpoA ["A", "B"]) 0 l)
            + (if i = j then (srVal egSr ((["A", "B"] : List String).getD i "")) ^ 2
               else 0)) / 100 ^ 2) :=
  ⟨(claim_C9 egExpo egCov egSr3 ["A", "B", "C"]).1 (by decide) (by decide),
   (claim_C9 egExpoA egCov egSr ["A", "B"]).2 (by decide) (by decide) (by decide)
     (by decide) (by decide) (by decide)⟩

theorem construct_labels (expoT : ExpoTable) (covT : CovTable) (srT : SrTable)
    (barrids : List String) (F : Frame)
    (h : construct_covariance_matrix expoT covT srT barrids = some F) :
    F.labels = barrids := by
  cases hbd : badd (matmul (matmul (exposuresMatrix expoT barrids) (fcovMatrix covT))
      (transposeM (exposuresMatrix expoT barrids))) (idioMatrix srT barrids) with
  | none =>
    rw [construct_eq_none expoT covT srT barrids hbd] at h
    cases h
  | some R =>
    rw [construct_eq_some expoT covT srT barrids R hbd] at h
    unfold mkFrame at h
    split at h
    · injection h with h2
      rw [← h2]
    · cases h

theorem sortStrings_nodup (l : List String) (h : l.Nodup) : (sortStrings l).Nodup :=
  (sortStrings_perm l).symm.nodup h

/-- C10: the exposure stage sorts its rows ascending by asset id while the
specific-risk stage and the final output are ordered and labelled by the
caller-supplied barrids as given; with every requested asset present exactly
once in the exposure source, all three orders coincide exactly when the
caller-supplied list is already duplicate-free and ascending-sorted. -/
theorem claim_C10 (expoT : ExpoTable) (covT : CovTable) (srT : SrTable)
    (barrids : List String)
    (hkeys : (expoT.rows.map Prod.fst).Nodup)
    (hall : ∀ b ∈ barrids, b ∈ expoT.rows.map Prod.fst) :
    ((construct_factor_exposure_matrix expoT barrids).map Prod.fst = barrids ↔
      (barrids.Nodup ∧ List.Sorted strLE barrids)) ∧
    (construct_specific_risk_matrix srT barrids).labels = barrids ∧
    (∀ F, construct_covariance_matrix expoT covT srT barrids = some F →
      F.labels = barrids) := by
  refine ⟨?_, rfl, fun F h => construct_labels expoT covT srT barrids F h⟩
  unfold construct_factor_exposure_matrix
  rw [map_fst_sortRows]
  have hem : (List.map (fun r : String × List (Option ℚ) =>
      (r.1, List.map (fun c => c.getD 0) r.2))
        (List.filter (fun r => barrids.contains r.1) expoT.rows)).map Prod.fst
      = (List.filter (fun r => barrids.contains r.1) expoT.rows).map Prod.fst := by
    rw [List.map_map]
    rfl
  rw [hem]
  have hfln : ((List.filter (fun r => barrids.contains r.1) expoT.rows).map
      Prod.fst).Nodup :=
    hkeys.sublist ((List.filter_sublist _).map Prod.fst)
  have hmem : ∀ b, b ∈ (List.filter (fun r => barrids.contains r.1)
      expoT.rows).map Prod.fst ↔ b ∈ barrids := by
    intro b
    constructor
    · intro hb
      rcases List.mem_map.mp hb with ⟨r, hr, rfl⟩
      rcases List.mem_filter.mp hr with ⟨_, hc⟩
      simpa [List.contains, List.elem_iff] using hc
    · intro hb
      rcases List.mem_map.mp (hall b hb) with ⟨r, hr, rfl⟩
      exact List.mem_map_of_mem Prod.fst (List.mem_filter.mpr
        ⟨hr, by simpa [List.contains, List.elem_iff] using hb⟩)
  constructor
  · intro heq
    refine ⟨?_, ?_⟩
    · rw [← heq]
      exact (sortStrings_perm _).symm.nodup hfln
    · rw [← heq]
      exact sortStrings_sorted _
  · rintro ⟨hn, hs⟩
    have hperm : ((List.filter (fun r => barrids.contains r.1) expoT.rows).map
        Prod.fst).Perm barrids :=
      (List.perm_ext_iff_of_nodup hfln hn).mpr hmem
    exact List.eq_of_perm_of_sorted ((sortStrings_perm _).trans hperm)
      (sortStrings_sorted _) hs

/-! Factor-covariance stage: positional-to-keyed bridge lemmas. -/

theorem covRowsSorted_length (T : CovTable) :
    (covRowsSorted T).length = T.rows.length :=
  (sortRows_perm _).length_eq

theorem covSortedCols_eq (T : CovTable)
    (hperm : T.cols.Perm (T.rows.map Prod.fst)) :
    covSortedCols T = covFactorIds T := by
  apply List.eq_of_perm_of_sorted
    ((sortStrings_perm _).trans (hperm.trans (covFactorIds_perm T).symm))
    (sortStrings_sorted _)
  unfold covFactorIds covRowsSorted
  exact sortRows_map_fst_sorted _

theorem covRowsSorted_find (T : CovTable) (hrn : (T.rows.map Prod.fst).Nodup)
    (i : ℕ) (hi : i < T.rows.length) :
    T.rows.find? (fun x => x.1 == ((covRowsSorted T).getD i ("", [])).1)
      = some ((covRowsSorted T).getD i ("", [])) := by
  apply find?_key_of_mem T.rows hrn
  have hlen : i < (covRowsSorted T).length := by
    rw [covRowsSorted_length]
    exact hi
  rw [List.getD_eq_getElem _ _ hlen]
  exact (sortRows_perm T.rows).mem_iff.mp (List.getElem_mem hlen)

theorem covFactorIds_getD (T : CovTable) (i : ℕ) (hi : i < T.rows.length) :
    (covFactorIds T).getD i "" = ((covRowsSorted T).getD i ("", [])).1 := by
  unfold covFactorIds
  rw [getD_map _ (covRowsSorted T) _ _ ("", [])
    (by rw [covRowsSorted_length]; exact hi)]

theorem covUtm_eq_covVal (T : CovTable) (hrn : (T.rows.map Prod.fst).Nodup)
    (hperm : T.cols.Perm (T.rows.map Prod.fst)) (i j : ℕ)
    (hi : i < T.rows.length) (hj : j < T.rows.length) :
    covUtm T i j
      = covVal T ((covFactorIds T).getD i "") ((covFactorIds T).getD j "") := by
  unfold covUtm covVal
  rw [covSortedCols_eq T hperm]
  rw [covFactorIds_getD T i hi]
  rw [covRowsSorted_find T hrn i hi]

theorem fget_fcov (T : CovTable) (hrn : (T.rows.map Prod.fst).Nodup)
    (i j : ℕ) (hi : i < T.rows.length) (hj : j < T.rows.length) :
    fget (construct_factor_covariance_matrix T) i j
      = (covMirrored T i j).getD 0 := by
  unfold fget
  rw [fcov_frame_cols T hrn]
  have hjlen : j < (covFactorIds T).length := by
    rw [covFactorIds_length]
    exact hj
  rw [packaged_getD (covFactorIds T) _ j _ hjlen]
  show ((List.range (covRowsSorted T).length).map
    (fun a => (covMirrored T a j).getD 0)).getD i 0 = _
  have hilen : i < (covRowsSorted T).length := by
    rw [covRowsSorted_length]
    exact hi
  rw [getD_map _ (List.range (covRowsSorted T).length) _ _ 0 (by simpa using hilen)]
  have hr : (List.range (covRowsSorted T).length).getD i 0 = i := by
    rw [List.getD_eq_getElem?_getD, List.getElem?_range hilen]
    rfl
  rw [hr]

/-- C3: the factor-covariance stage reconstructs the symmetric K x K matrix
from the upper-triangular source — for each factor pair the value on both
sides is whichever stored cell is not NaN, and 0.0 when both are NaN — and
for an upper-triangular input derived from a symmetric ground truth the
reconstruction equals that ground truth exactly. -/
theorem claim_C3 (T : CovTable)
    (hrn : (T.rows.map Prod.fst).Nodup)
    (hperm : T.cols.Perm (T.rows.map Prod.fst)) :
    ((∀ f1 ∈ covFactorIds T, ∀ f2 ∈ covFactorIds T, f1 ≠ f2 →
        covVal T f1 f2 = none ∨ covVal T f2 f1 = none) →
      ∀ i j, i < T.rows.length → j < T.rows.length →
        (∀ v : ℚ,
          (covVal T ((covFactorIds T).getD i "") ((covFactorIds T).getD j "")
              = some v ∨
            covVal T ((covFactorIds T).getD j "") ((covFactorIds T).getD i "")
              = some v) →
          fget (construct_factor_covariance_matrix T) i j = v ∧
          fget (construct_factor_covariance_matrix T) j i = v) ∧
        ((covVal T ((covFactorIds T).getD i "") ((covFactorIds T).getD j "")
            = none ∧
          covVal T ((covFactorIds T).getD j "") ((covFactorIds T).getD i "")
            = none) →
          fget (construct_factor_covariance_matrix T) i j = 0 ∧
          fget (construct_factor_covariance_matrix T) j i = 0)) ∧
    (∀ G : String → String → ℚ,
      (∀ f1 ∈ covFactorIds T, ∀ f2 ∈ covFactorIds T, G f1 f2 = G f2 f1) →
      (∀ f1 ∈ covFactorIds T, ∀ f2 ∈ covFactorIds T,
        covVal T f1 f2 = if strLE f1 f2 then some (G f1 f2) else none) →
      ∀ i j, i < T.rows.length → j < T.rows.length →
        fget (construct_factor_covariance_matrix T) i j
          = G ((covFactorIds T).getD i "") ((covFactorIds T).getD j "")) := by
  have hidslen : (covFactorIds T).length = T.rows.length := covFactorIds_length T
  have hmem : ∀ i, i < T.rows.length → (covFactorIds T).getD i "" ∈ covFactorIds T := by
    intro i hi
    rw [List.getD_eq_getElem _ _ (by omega)]
    exact List.getElem_mem (by omega)
  constructor
  · intro htri i j hi hj
    have e1 := fget_fcov T hrn i j hi hj
    have e2 := fget_fcov T hrn j i hj hi
    have u1 := covUtm_eq_covVal T hrn hperm i j hi hj
    have u2 := covUtm_eq_covVal T hrn hperm j i hj hi
    constructor
    · intro v hv
      rcases hv with hv | hv
      · rcases h21 : covVal T ((covFactorIds T).getD j "")
            ((covFactorIds T).getD i "") with _ | w
        · have m1 : covMirrored T i j = some v := by
            unfold covMirrored
            rw [u1, hv]
          have m2 : covMirrored T j i = some v := by
            unfold covMirrored
            rw [u2, h21, u1, hv]
          rw [m1] at e1
          rw [m2] at e2
          exact ⟨e1, e2⟩
        · have hfeq : (covFactorIds T).getD i "" = (covFactorIds T).getD j "" := by
            by_contra hne
            rcases htri _ (hmem i hi) _ (hmem j hj) hne with h | h
            · rw [hv] at h
              cases h
            · rw [h21] at h
              cases h
          have hwv : w = v := by
            have hv2 := hv
            have h22 := h21
            rw [hfeq] at hv2 h22
            rw [hv2] at h22
            exact (Option.some.inj h22).symm
          have m1 : covMirrored T i j = some v := by
            unfold covMirrored
            rw [u1, hv]
          have m2 : covMirrored T j i = some v := by
            unfold covMirrored
            rw [u2, h21, hwv]
          rw [m1] at e1
          rw [m2] at e2
          exact ⟨e1, e2⟩
      · rcases h12 : covVal T ((covFactorIds T).getD i "")
            ((covFactorIds T).getD j "") with _ | w
        · have m1 : covMirrored T i j = some v := by
            unfold covMirrored
            rw [u1, h12, u2, hv]
          have m2 : covMirrored T j i = some v := by
            unfold covMirrored
            rw [u2, hv]
          rw [m1] at e1
          rw [m2] at e2
          exact ⟨e1, e2⟩
        · have hfeq : (covFactorIds T).getD i "" = (covFactorIds T).getD j "" := by
            by_contra hne
            rcases htri _ (hmem i hi) _ (hmem j hj) hne with h | h
            · rw [h12] at h
              cases h
            · rw [hv] at h
              cases h
          have hwv : w = v := by
            have hv2 := hv
            have h122 := h12
            rw [hfeq] at hv2 h122
            rw [h122] at hv2
            exact Option.some.inj hv2
          have m1 : covMirrored T i j = some v := by
            unfold covMirrored
            rw [u1, h12, hwv]
          have m2 : covMirrored T j i = some v := by
            unfold covMirrored
            rw [u2, hv]
          rw [m1] at e1
          rw [m2] at e2
          exact ⟨e1, e2⟩
    · rintro ⟨h12, h21⟩
      have m1 : covMirrored T i j = none := by
        unfold covMirrored
        rw [u1, h12, u2, h21]
      have m2 : covMirrored T j i = none := by
        unfold covMirrored
        rw [u2, h21, u1, h12]
      rw [m1] at e1
      rw [m2] at e2
      exact ⟨e1, e2⟩
  · intro G hsymG hstore i j hi hj
    have e1 := fget_fcov T hrn i j hi hj
    have u1 := covUtm_eq_covVal T hrn hperm i j hi hj
    have u2 := covUtm_eq_covVal T hrn hperm j i hj hi
    by_cases h12 : strLE ((covFactorIds T).getD i "") ((covFactorIds T).getD j "")
    · have hc := hstore _ (hmem i hi) _ (hmem j hj)
      rw [if_pos h12] at hc
      have m1 : covMirrored T i j = some (G ((covFactorIds T).getD i "")
          ((covFactorIds T).getD j "")) := by
        unfold covMirrored
        rw [u1, hc]
      rw [m1] at e1
      exact e1
    · have h21 : strLE ((covFactorIds T).getD j "") ((covFactorIds T).getD i "") := by
        rcases IsTotal.total (r := strLE) ((covFactorIds T).getD i "")
          ((covFactorIds T).getD j "") with h | h
        · exact absurd h h12
        · exact h
      have hc1 := hstore _ (hmem i hi) _ (hmem j hj)
      rw [if_neg h12] at hc1
      have hc2 := hstore _ (hmem j hj) _ (hmem i hi)
      rw [if_pos h21] at hc2
      have m1 : covMirrored T i j = some (G ((covFactorIds T).getD j "")
          ((covFactorIds T).getD i "")) := by
        unfold covMirrored
        rw [u1, hc1, u2, hc2]
      rw [m1] at e1
      rw [hsymG _ (hmem j hj) _ (hmem i hi)] at e1
      exact e1

/-- C3 witness: the two-factor upper-triangular table `egCovUT` (cell
`(G, F)` stored as NaN) satisfies the hypotheses; in addition the mirrored
off-diagonal entries concretely both equal the stored value 3, matching the
ground truth `egGT`. -/
theorem claim_C3_witness :
    (fget (construct_factor_covariance_matrix egCovUT) 0 1 = 3 ∧
      fget (construct_factor_covariance_matrix egCovUT) 1 0 = 3) ∧
    (((∀ f1 ∈ covFactorIds egCovUT, ∀ f2 ∈ covFactorIds egCovUT, f1 ≠ f2 →
        covVal egCovUT f1 f2 = none ∨ covVal egCovUT f2 f1 = none) →
      ∀ i j, i < egCovUT.rows.length → j < egCovUT.rows.length →
        (∀ v : ℚ,
          (covVal egCovUT ((covFactorIds egCovUT).getD i "")
              ((covFactorIds egCovUT).getD j "") = some v ∨
            covVal egCovUT ((covFactorIds egCovUT).getD j "")
              ((covFactorIds egCovUT).getD i "") = some v) →
          fget (construct_factor_covariance_matrix egCovUT) i j = v ∧
          fget (construct_factor_covariance_matrix egCovUT) j i = v) ∧
        ((covVal egCovUT ((covFactorIds egCovUT).getD i "")
            ((covFactorIds egCovUT).getD j "") = none ∧
          covVal egCovUT ((covFactorIds egCovUT).getD j "")
            ((covFactorIds egCovUT).getD i "") = none) →
          fget (construct_factor_covariance_matrix egCovUT) i j = 0 ∧
          fget (construct_factor_covariance_matrix egCovUT) j i = 0)) ∧
    (∀ G : String → String → ℚ,
      (∀ f1 ∈ covFactorIds egCovUT, ∀ f2 ∈ covFactorIds egCovUT,
        G f1 f2 = G f2 f1) →
      (∀ f1 ∈ covFactorIds egCovUT, ∀ f2 ∈ covFactorIds egCovUT,
        covVal egCovUT f1 f2 = if strLE f1 f2 then some (G f1 f2) else none) →
      ∀ i j, i < egCovUT.rows.length → j < egCovUT.rows.length →
        fget (construct_factor_covariance_matrix egCovUT) i j
          = G ((covFactorIds egCovUT).getD i "")
              ((covFactorIds egCovUT).getD j ""))) :=
  ⟨by decide, claim_C3 egCovUT (by decide) (by decide)⟩

/-- C10 witness: with both requested assets present in the exposure source,
the unsorted request `["B", "A"]` makes the three orders diverge while the
sorted request `["A", "B"]` makes them coincide; here the claim is applied
to `["A", "B"]`, whose duplicate-free sortedness is decided concretely. -/
theorem claim_C10_witness :
    ((construct_factor_exposure_matrix egExpo ["A", "B"]).map Prod.fst
        = ["A", "B"] ↔
      ((["A", "B"] : List String).Nodup ∧
        List.Sorted strLE ["A", "B"])) ∧
    (construct_specific_risk_matrix egSr ["A", "B"]).labels = ["A", "B"] ∧
    (∀ F, construct_covariance_matrix egExpo egCov egSr ["A", "B"] = some F →
      F.labels = ["A", "B"]) :=
  claim_C10 egExpo egCov egSr ["A", "B"] (by decide) (by decide)

/-! The closed factor enumeration. -/

theorem factors_sorted : List.Sorted strLE factors :=
  sortStrings_sorted _

theorem factors_nodup : factors.Nodup :=
  sortStrings_nodup _ (by decide)

/-- C5: with the covariance source drawing on the same FactorId universe as
the shared enumeration, the factor-covariance stage's row label order and
column label order are identical and ascending lexicographic, and equal the
factor column order of the exposure matrix (the closed enumeration
`factors`, supplied to the exposure source per the spec). -/
theorem claim_C5 (covT : CovTable) (expoT : ExpoTable)
    (hscols : covT.cols.Perm factors)
    (hsrows : (covT.rows.map Prod.fst).Perm factors)
    (hload : exposureMatrixFactorColumns expoT = loadedExposureFactorColumns) :
    (construct_factor_covariance_matrix covT).labels
        = (construct_factor_covariance_matrix covT).cols.map Prod.fst ∧
    List.Sorted strLE (construct_factor_covariance_matrix covT).labels ∧
    (construct_factor_covariance_matrix covT).labels
        = exposureMatrixFactorColumns expoT ∧
    covSortedCols covT = (construct_factor_covariance_matrix covT).labels := by
  have hrn : (covT.rows.map Prod.fst).Nodup := hsrows.symm.nodup factors_nodup
  have hfid : covFactorIds covT = factors := by
    apply List.eq_of_perm_of_sorted ((covFactorIds_perm covT).trans hsrows)
      _ factors_sorted
    unfold covFactorIds covRowsSorted
    exact sortRows_map_fst_sorted _
  have hsc : covSortedCols covT = factors := by
    apply List.eq_of_perm_of_sorted ((sortStrings_perm _).trans hscols)
      (sortStrings_sorted _) factors_sorted
  have hcols : (construct_factor_covariance_matrix covT).cols.map Prod.fst
      = covFactorIds covT := by
    rw [fcov_frame_cols covT hrn]
    exact packaged_map_fst _ _
  refine ⟨?_, ?_, ?_, ?_⟩
  · rw [fcov_frame_labels, hcols]
  · rw [fcov_frame_labels, hfid]
    exact factors_sorted
  · rw [fcov_frame_labels, hfid, hload]
    rfl
  · rw [fcov_frame_labels, hsc, hfid]

/-- C5 witness: a covariance source whose rows and columns are exactly the
closed enumeration, against an exposure source whose factor columns are the
spec-modelled shared enumeration. -/
theorem claim_C5_witness :
    ((construct_factor_covariance_matrix
        ⟨factors, factors.map (fun f => (f, ([] : List (Option ℚ))))⟩).labels
        = (construct_factor_covariance_matrix
            ⟨factors, factors.map (fun f => (f, ([] : List (Option ℚ))))⟩).cols.map
              Prod.fst) ∧
    List.Sorted strLE (construct_factor_covariance_matrix
        ⟨factors, factors.map (fun f => (f, ([] : List (Option ℚ))))⟩).labels ∧
    ((construct_factor_covariance_matrix
        ⟨factors, factors.map (fun f => (f, ([] : List (Option ℚ))))⟩).labels
        = exposureMatrixFactorColumns ⟨factors, []⟩) ∧
    covSortedCols ⟨factors, factors.map (fun f => (f, ([] : List (Option ℚ))))⟩
        = (construct_factor_covariance_matrix
            ⟨factors, factors.map (fun f => (f, ([] : List (Option ℚ))))⟩).labels :=
  claim_C5 ⟨factors, factors.map (fun f => (f, ([] : List (Option ℚ))))⟩
    ⟨factors, []⟩ (List.Perm.refl _)
    (by
      rw [List.map_map]
      exact List.Perm.refl _)
    rfl

end SfQuant
